import Mathlib

/-!
Verification of the alluvial-diagram layout engine
(`src/alluvial_diagram/alluvial_chart.py`, `alluvial_lines.py`,
`alluvial_nodes.py`) against its specification.

The embedding works on the unit grid with exact rational coordinates
(`ℚ`); Python dicts, whose insertion order is the load-bearing ordering
mechanism of the sweep, are embedded as association lists.  Rendering
(matplotlib calls, colors, labels) is out of scope of the claims and is
not modelled; the geometric state the renderer consumes is.
-/

/-- Line identifiers (the keys of `line_data`). -/
abbrev LineId := Nat

/-- One entry of `line_data[id][category]`: the target node label and the
optional `"subnode"` tag. -/
structure LineTarget where
  node : String
  subnode : Option String
deriving DecidableEq, Repr

/-- `line_data`: line id → (category → target), in insertion order. -/
abbrev LineData := List (LineId × List (String × LineTarget))

/-- `node_data`: category → (node label → optional declared subnode labels),
in insertion order.  Style keys (colors, opacity) are render-only and are
not part of the layout state. -/
abbrev NodeData := List (String × List (String × Option (List String)))

/-- The layout-relevant constructor arguments of `AlluvialChart.__init__`
(`plot_id` is fixed to `False`: the id-label connector is excluded by the
claims, and `figsize`/`dev_mode`/colors are render-only). -/
structure Config where
  nodesXShare : ℚ
  nodeMinYExtend : ℚ
  nodeSeparation : ℚ
  straightLineOutsideNode : ℚ
  extendLinesIntoOutsideNodes : Bool
deriving DecidableEq, Repr

/-- The default constructor arguments of `AlluvialChart.__init__`. -/
def defaultConfig : Config :=
  ⟨3/10, 1/100, 1/20, 1/20, false⟩

/-- One entry of `self.node_details[category][node]` after `make_nodes`. -/
structure NodeDetail where
  x : ℚ
  width : ℚ
  y : ℚ
  height : ℚ
deriving DecidableEq, Repr

/-- The target of line `id` at `category` (`self.line_data[id][category]`). -/
def lineTargetAt (lineData : LineData) (id : LineId) (cat : String) :
    Option LineTarget :=
  (lineData.lookup id).bind (fun m => m.lookup cat)

/-- `make_nodes`, lines 97-100: the number of lines whose target node at
`cat` is `node`. -/
def nodeCount (lineData : LineData) (cat node : String) : ℕ :=
  (lineData.filter
    (fun ld => ((ld.2.lookup cat).map LineTarget.node) == some node)).length

/-- `make_nodes`, lines 112-117: the height a node with `c` matching lines
receives when the category's total count is `total` and the distributable
vertical budget is `dist`. -/
def nodeHeight (minY dist : ℚ) (total c : ℕ) : ℚ :=
  if 0 < total then minY + (c : ℚ) / (total : ℚ) * dist else 0

/-- `make_nodes`, lines 107-111: `y_space_distributed`, the vertical budget
left after reserving the minimum extent per node and the separation between
consecutive nodes. -/
def ySpaceDistributed (minY sep : ℚ) (n : ℕ) : ℚ :=
  1 - ((n : ℚ) * minY + ((n : ℚ) - 1) * sep)

/-- `make_nodes`, lines 112-120: walk the category's nodes top to bottom
from `y_position`, recording `(label, y, height)` per node. -/
def placeNodesY (minY sep dist : ℚ) (total : ℕ) :
    List (String × ℕ) → ℚ → List (String × ℚ × ℚ)
  | [], _ => []
  | (nd, c) :: rest, yPos =>
    (nd, yPos - nodeHeight minY dist total c, nodeHeight minY dist total c) ::
      placeNodesY minY sep dist total rest
        (yPos - nodeHeight minY dist total c - sep)

/-- The vertical part of `make_nodes` for one category, starting from
`y_position = 1` (line 104); `counts` is the category's
`node_counts` dict in declared node order. -/
def makeNodesCategoryY (minY sep : ℚ) (counts : List (String × ℕ)) :
    List (String × ℚ × ℚ) :=
  placeNodesY minY sep (ySpaceDistributed minY sep counts.length)
    ((counts.map Prod.snd).sum) counts 1

/-- `make_nodes`: full `self.node_details` (x stride from lines 85-93,
y layout from lines 95-120). -/
def makeNodes (cfg : Config) (nodeData : NodeData) (lineData : LineData) :
    List (String × List (String × NodeDetail)) :=
  let K := nodeData.length
  let xSpacing := (1 - cfg.nodesXShare) / ((K : ℚ) - 1)
  let nodeWidth := cfg.nodesXShare / (K : ℚ)
  nodeData.enum.map (fun p =>
    (p.2.1,
      (makeNodesCategoryY cfg.nodeMinYExtend cfg.nodeSeparation
          (p.2.2.map (fun nd => (nd.1, nodeCount lineData p.2.1 nd.1)))).map
        (fun d =>
          (d.1, ⟨(p.1 : ℚ) * (nodeWidth + xSpacing), nodeWidth,
                 d.2.1, d.2.2⟩))))

/-- `_get_line_y_positions`, lines 289-302: assign consecutive slots to
`ids` starting at `startY`, stepping down by `spacing` after each line
(`line_y -= line_spacing`). -/
def assignSlots : List LineId → ℚ → ℚ → List (LineId × ℚ)
  | [], _, _ => []
  | id :: ids, y, sp => (id, y) :: assignSlots ids (y - sp) sp

/-- `_get_line_y_positions`, lines 288-302: the line ids of `ordered` that
are assigned inside the given node, in assignment order: all matching lines
in caller order when the node declares no subnodes (lines 289-293),
otherwise grouped by declared subnode, caller order within a subnode
(lines 295-302).  A line whose target is a subnode-bearing node but whose
tag matches no declared subnode is silently dropped. -/
def nodeMatchIds (subs : Option (List String))
    (lineSubnodeAt : LineId → Option String)
    (ordered : List (LineId × String)) (node : String) : List LineId :=
  match subs with
  | none => (ordered.filter (fun p => p.2 == node)).map Prod.fst
  | some subnodeList =>
      subnodeList.flatMap (fun s =>
        (ordered.filter
          (fun p => p.2 == node && lineSubnodeAt p.1 == some s)).map Prod.fst)

/-- `_get_line_y_positions`, lines 277-303: per-line y slots for one
category.  `catDetails` is the category's `node_details` dict (label,
detail) in declared order, `subnodesOf` reads the declared subnode list
from `node_data`, `lineSubnodeAt` reads a line's `"subnode"` tag, and
`ordered` is the caller-supplied `ordered_line_data` in insertion order.
The output order is the insertion order of the Python result dict. -/
def getLineYPositions (catDetails : List (String × NodeDetail))
    (subnodesOf : String → Option (List String))
    (lineSubnodeAt : LineId → Option String)
    (ordered : List (LineId × String)) (spacing : ℚ) :
    List (LineId × ℚ) :=
  catDetails.flatMap (fun nd =>
    assignSlots (nodeMatchIds (subnodesOf nd.1) lineSubnodeAt ordered nd.1)
      (nd.2.y + nd.2.height
        - (nd.2.height
            - spacing * ((ordered.filter (fun p => p.2 == nd.1)).length : ℚ))
          / 2
        - spacing / 2)
      spacing)

/-- `_get_line_y_positions`, lines 269-276: the uniform slot spacing,
90% of the category's total node height divided by the line count. -/
def lineSpacingOf (catDetails : List (String × NodeDetail))
    (numLines : ℕ) : ℚ :=
  (catDetails.map (fun nd => nd.2.height)).sum * (9/10) / (numLines : ℚ)

/-- The declared subnode list of `node` in `cat`
(`self.node_data[category][node]["subnodes"]`, when present). -/
def subnodesOfIn (nodeData : NodeData) (cat : String) :
    String → Option (List String) :=
  fun node => ((nodeData.lookup cat).bind (fun m => m.lookup node)).bind id

/-- The `"subnode"` tag of line `id` at `cat`
(`self.line_data[line_id][category]["subnode"]`, when present). -/
def lineSubnodeIn (lineData : LineData) (cat : String) :
    LineId → Option String :=
  fun id => (lineTargetAt lineData id cat).bind LineTarget.subnode

/-- `extend_line_segments`, lines 366-369: the `ordered_line_data` dict for
the next category, keeping the previous category's key order and reading
the new target node from `line_data`. -/
def orderedFor (lineData : LineData) (cat : String)
    (yPrev : List (LineId × ℚ)) : List (LineId × String) :=
  yPrev.filterMap (fun p =>
    (lineTargetAt lineData p.1 cat).map (fun t => (p.1, t.node)))

/-- One `_get_line_y_positions` call as made by the driver: spacing from
lines 269-276 and slots from lines 277-303, for the category `cat` with
node details `catDetails`. -/
def categorySlots (nodeData : NodeData) (lineData : LineData)
    (catDetails : List (String × NodeDetail)) (cat : String)
    (ordered : List (LineId × String)) : ℚ × List (LineId × ℚ) :=
  let spacing := lineSpacingOf catDetails ordered.length
  (spacing,
   getLineYPositions catDetails (subnodesOfIn nodeData cat)
     (lineSubnodeIn lineData cat) ordered spacing)

/-- The y-position chain of `extend_line_segments` (lines 357-402), one
entry `(category, spacing, slots)` per swept category: each step regroups
the previous step's slot order by the new category's targets and assigns
fresh slots. -/
def sweepYs (nodeData : NodeData)
    (details : List (String × List (String × NodeDetail)))
    (lineData : LineData) :
    List String → List (LineId × ℚ) → List (String × ℚ × List (LineId × ℚ))
  | [], _ => []
  | cat :: rest, yPrev =>
    let ordered := orderedFor lineData cat yPrev
    let res := categorySlots nodeData lineData
      ((details.lookup cat).getD []) cat ordered
    (cat, res.1, res.2) :: sweepYs nodeData details lineData rest res.2

/-- A path-segment record: start point, finish point and name
(`LineSegment.__init__`). -/
structure SegRec where
  start : ℚ × ℚ
  finish : ℚ × ℚ
  name : String
deriving DecidableEq, Repr

/-- A `PathSegment` of the layout: a straight run or a curved connector. -/
inductive Seg where
  | straight (rec : SegRec)
  | curved (rec : SegRec)
deriving DecidableEq, Repr

/-- `StraightLine.__init__`, lines 55-57: when called with reversed x
order, `start = deepcopy(finish)` runs before `finish = deepcopy(start)`,
so both endpoints become the original finish. -/
def mkStraight (s f : ℚ × ℚ) (name : String) : Seg :=
  if f.1 < s.1 then Seg.straight ⟨f, f, name⟩ else Seg.straight ⟨s, f, name⟩

/-- `CurvedLine.__init__`: no normalisation at construction. -/
def mkCurved (s f : ℚ × ℚ) (name : String) : Seg :=
  Seg.curved ⟨s, f, name⟩

/-- Segment names, `category + "_" + node + "_" + str(line_id)`
(lines 218-222, 377-381, 394-398). -/
def segName (lineData : LineData) (cat : String) (id : LineId) : String :=
  cat ++ "_" ++ (((lineTargetAt lineData id cat).map LineTarget.node).getD "")
    ++ "_" ++ toString id

/-- `_get_line_x_position`, lines 305-347: left/right x bounds of the line
segments at `cat` (with `plot_id = False`). -/
def getLineXPosition (cfg : Config) (categories : List String)
    (details : List (String × List (String × NodeDetail)))
    (cat : String) : ℚ × ℚ :=
  let d := (((details.lookup cat).bind List.head?).map Prod.snd).getD
    ⟨0, 0, 0, 0⟩
  let lx := d.x
  let rx := d.x + d.width
  if cat = categories.headD "" then
    if cfg.extendLinesIntoOutsideNodes then ((lx + rx) / 2, rx) else (rx, rx)
  else if cat = (categories.getLast?.getD "") then
    if cfg.extendLinesIntoOutsideNodes then (lx, (lx + rx) / 2) else (lx, lx)
  else
    (lx - cfg.straightLineOutsideNode / 2, rx + cfg.straightLineOutsideNode / 2)

/-- Sweep direction of `extend_line_segments`. -/
inductive Direction where
  | left
  | right
deriving DecidableEq, Repr

/-- One swept category of `extend_line_segments`: its name, the recorded
`line_spacing`, the recorded `line_y_positions`, and per line the straight
run plus curved connector appended at this step (lines 372-400). -/
structure SweepStep where
  cat : String
  spacing : ℚ
  ys : List (LineId × ℚ)
  segs : List (LineId × List Seg)
deriving DecidableEq, Repr

/-- Segment emission of `extend_line_segments` along a precomputed
y-position chain: per step, each assigned line gets a straight run over the
new category's bounds and a curved connector bridging back to its previous
y (lines 372-400); `starting_x` and the y dict advance per category
(lines 401-402). -/
def buildSteps (cfg : Config) (categories : List String)
    (details : List (String × List (String × NodeDetail)))
    (lineData : LineData) (dir : Direction) :
    ℚ → List (LineId × ℚ) → List (String × ℚ × List (LineId × ℚ)) →
      List SweepStep
  | _, _, [] => []
  | startingX, yPrev, (cat, spacing, ys) :: rest =>
    let xs := getLineXPosition cfg categories details cat
    let connX := match dir with
      | Direction.left => xs.2
      | Direction.right => xs.1
    let newStartX := match dir with
      | Direction.left => xs.1
      | Direction.right => xs.2
    let segs := ys.map (fun p =>
      (p.1, [mkStraight (xs.1, p.2) (xs.2, p.2) (segName lineData cat p.1),
             mkCurved (connX, p.2) (startingX, (yPrev.lookup p.1).getD 0)
               (segName lineData cat p.1)]))
    ⟨cat, spacing, ys, segs⟩ ::
      buildSteps cfg categories details lineData dir newStartX ys rest

/-- `extend_line_segments`, lines 349-405: sweep the given categories in
order, starting from the anchor bounds and slots.  The trailing
`plot_ids` call (lines 403-404) is render-only with `plot_id = False` and
is not modelled. -/
def extendLineSegments (cfg : Config) (nodeData : NodeData)
    (details : List (String × List (String × NodeDetail)))
    (lineData : LineData) (dir : Direction) (startingX : ℚ)
    (yPositions : List (LineId × ℚ)) (cats : List String) :
    List SweepStep :=
  buildSteps cfg (nodeData.map Prod.fst) details lineData dir startingX
    yPositions (sweepYs nodeData details lineData cats yPositions)

/-- The result of `make_lines` (lines 187-255): anchor category data plus
the two sweeps. -/
structure LinesResult where
  anchorCat : String
  anchorSpacing : ℚ
  anchorYs : List (LineId × ℚ)
  anchorSegs : List (LineId × List Seg)
  leftSteps : List SweepStep
  rightSteps : List SweepStep
deriving DecidableEq, Repr

/-- `make_lines`, lines 187-255: establish the anchor category's slots and
straight runs (lines 198-224), then sweep left over the reversed prefix
(lines 226-236) and right over the suffix (lines 238-247). -/
def makeLines (cfg : Config) (nodeData : NodeData)
    (details : List (String × List (String × NodeDetail)))
    (lineData : LineData) (sortedCategory : Option String) : LinesResult :=
  let categories := nodeData.map Prod.fst
  let startCat := sortedCategory.getD (categories.headD "")
  let xs := getLineXPosition cfg categories details startCat
  let ordered := lineData.filterMap (fun ld =>
    ((ld.2.lookup startCat).map (fun t => (ld.1, t.node))))
  let res := categorySlots nodeData lineData
    ((details.lookup startCat).getD []) startCat ordered
  let aSegs := res.2.map (fun p =>
    (p.1, [mkStraight (xs.1, p.2) (xs.2, p.2) (segName lineData startCat p.1)]))
  let idx := List.indexOf startCat categories
  ⟨startCat, res.1, res.2, aSegs,
   extendLineSegments cfg nodeData details lineData Direction.left xs.1
     res.2 ((categories.take idx).reverse),
   extendLineSegments cfg nodeData details lineData Direction.right xs.2
     res.2 (categories.drop (idx + 1))⟩

/-- `self.line_y_positions` after `make_lines`: category → slot dict, in
write order (anchor first, then the left sweep, then the right sweep). -/
def LinesResult.yPositionsList (r : LinesResult) :
    List (String × List (LineId × ℚ)) :=
  (r.anchorCat, r.anchorYs) ::
    (r.leftSteps.map (fun st => (st.cat, st.ys))
      ++ r.rightSteps.map (fun st => (st.cat, st.ys)))

/-- `self.line_spacing` after `make_lines`. -/
def LinesResult.spacingsList (r : LinesResult) : List (String × ℚ) :=
  (r.anchorCat, r.anchorSpacing) ::
    (r.leftSteps.map (fun st => (st.cat, st.spacing))
      ++ r.rightSteps.map (fun st => (st.cat, st.spacing)))

/-- The slot y of line `id` at `cat` (`self.line_y_positions[cat][id]`). -/
def yAt (r : LinesResult) (cat : String) (id : LineId) : Option ℚ :=
  (r.yPositionsList.lookup cat).bind (fun ys => ys.lookup id)

/-- `self.line_segments[id]` after `make_lines`: the anchor straight run,
then the segments appended by the left sweep, then by the right sweep. -/
def segmentsFor (r : LinesResult) (id : LineId) : List Seg :=
  ((r.anchorSegs.lookup id).getD []) ++
    (((r.leftSteps ++ r.rightSteps).map
      (fun st => (st.segs.lookup id).getD [])).flatten)

/-- Four categories, anchored mid-sweep at `B`: lines 1 and 2 share node
`n` at `A` and `B`, split to `n2`/`n1` at `C`, and re-converge on `m`
at `D`. -/
def cexNodeData : NodeData :=
  [("A", [("n", none)]), ("B", [("n", none)]),
   ("C", [("n1", none), ("n2", none)]), ("D", [("m", none)])]

/-- The two lines of the order-preservation counterexample. -/
def cexLineData : LineData :=
  [(1, [("A", ⟨"n", none⟩), ("B", ⟨"n", none⟩),
        ("C", ⟨"n2", none⟩), ("D", ⟨"m", none⟩)]),
   (2, [("A", ⟨"n", none⟩), ("B", ⟨"n", none⟩),
        ("C", ⟨"n1", none⟩), ("D", ⟨"m", none⟩)])]

/-- Configuration of the counterexample run (zero minimum node height and
zero separation, for readable slot values). -/
def cexConfig : Config := ⟨3/10, 0, 0, 1/20, false⟩

/-- The counterexample `make_lines` run, anchored at `B`. -/
def cexLines : LinesResult :=
  makeLines cexConfig cexNodeData
    (makeNodes cexConfig cexNodeData cexLineData) cexLineData (some "B")

/-- Witness data: three categories with one node each and a single line,
anchored at the middle category `B`. -/
def exNodeData : NodeData :=
  [("A", [("a", none)]), ("B", [("b", none)]), ("C", [("c", none)])]

/-- The single line of the segment-count witness. -/
def exLineData : LineData :=
  [(1, [("A", ⟨"a", none⟩), ("B", ⟨"b", none⟩), ("C", ⟨"c", none⟩)])]

/-- The witness `make_lines` run. -/
def exLines : LinesResult :=
  makeLines defaultConfig exNodeData
    (makeNodes defaultConfig exNodeData exLineData) exLineData (some "B")

/-- A subnode rectangle as built by `place_subnodes` (position is the
bottom-left corner, as for `plt.Rectangle`). -/
structure SubRect where
  label : String
  x : ℚ
  width : ℚ
  y : ℚ
  height : ℚ
deriving DecidableEq, Repr

/-- `place_subnodes`, lines 158-163: the slot y-positions of the lines
assigned to `(nodeLabel, sub)` at `cat`, gathered over `line_data` in
insertion order (a line without a recorded slot contributes nothing;
in the source such a line would raise a `KeyError` at line 162). -/
def subnodeLineYs (lineData : LineData) (cat nodeLabel sub : String)
    (lineYs : List (LineId × ℚ)) : List ℚ :=
  lineData.filterMap (fun ld =>
    match ld.2.lookup cat with
    | some t =>
        if t.node == nodeLabel && t.subnode == some sub then
          lineYs.lookup ld.1
        else none
    | none => none)

/-- `place_subnodes`, lines 163-181, after sorting: geometry of one
subnode from its sorted matching slot list (`m` is the slot-spacing
margin `line_spacing * subnode_rel_size`).  An empty match list yields no
geometry; a computed height of `0` is also dropped by the
`.get("height")` truthiness test at line 170. -/
def placeSubnodeSorted (m subnodeX subnodeWidth : ℚ) (sub : String) :
    List ℚ → Option SubRect
  | [] => none
  | y0 :: rest =>
    let h := if 0 < rest.length then
        (y0 :: rest).getLast (List.cons_ne_nil y0 rest) - y0 + m
      else m
    if h ≠ 0 then some ⟨sub, subnodeX, subnodeWidth, y0 - m / 2, h⟩
    else none

/-- `place_subnodes`, lines 157-181, for one subnode: sort the matching
slot ys ascending (line 163) and derive the geometry. -/
def placeSubnode (spacing subnodeX subnodeWidth : ℚ) (ys : List ℚ)
    (sub : String) : Option SubRect :=
  placeSubnodeSorted (spacing * (9/10)) subnodeX subnodeWidth sub
    (ys.insertionSort (· ≤ ·))

/-- `place_subnodes`, lines 151-185: subnode rectangles of one node, in
declared subnode order; `subnode_rel_size = 0.9` fixes the x inset and
width (lines 152-154). -/
def placeSubnodes (lineData : LineData) (cat nodeLabel : String)
    (nodeX nodeWidth spacing : ℚ) (lineYs : List (LineId × ℚ))
    (subnodeLabels : List String) : List SubRect :=
  subnodeLabels.filterMap (fun sub =>
    placeSubnode spacing (nodeX + nodeWidth * (1 - 9/10) / 2)
      (nodeWidth * (9/10))
      (subnodeLineYs lineData cat nodeLabel sub lineYs) sub)

/-- Witness data for the subnode scenario: two lines in subnode `X`, one
in `Y`, none in `Z`. -/
def exSubLineData : LineData :=
  [(1, [("B", ⟨"b", some "X"⟩)]), (2, [("B", ⟨"b", some "X"⟩)]),
   (3, [("B", ⟨"b", some "Y"⟩)])]

/-- Witness slot positions for the subnode scenario. -/
def exSubLineYs : List (LineId × ℚ) := [(1, 3/4), (2, 1/2), (3, 1/4)]

/-- `make_subnodes` (lines 143-149): for each category, each node with a
truthy label that declares subnodes gets its subnode rectangles from
`place_subnodes`, reading the recorded per-category spacing and slot
dict. -/
def makeSubnodes (lineData : LineData) (nodeData : NodeData)
    (details : List (String × List (String × NodeDetail)))
    (yPos : List (String × List (LineId × ℚ)))
    (spacings : List (String × ℚ)) :
    List (String × List (String × List SubRect)) :=
  nodeData.map (fun c =>
    (c.1, c.2.filterMap (fun nd =>
      if nd.1 = "" then none
      else nd.2.map (fun subs =>
        (nd.1,
         placeSubnodes lineData c.1 nd.1
           ((((details.lookup c.1).bind
               (fun m => m.lookup nd.1))).getD ⟨0, 0, 0, 0⟩).x
           ((((details.lookup c.1).bind
               (fun m => m.lookup nd.1))).getD ⟨0, 0, 0, 0⟩).width
           ((spacings.lookup c.1).getD 0)
           ((yPos.lookup c.1).getD []) subs)))))

/-- The geometry-relevant inputs of one `AlluvialChart` run. -/
structure LayoutInput where
  cfg : Config
  nodeData : NodeData
  lineData : LineData
  sortedCategory : Option String
deriving DecidableEq

/-- The geometric state a run produces: node rectangles, line path
segments and slot dicts, and subnode rectangles. -/
structure LayoutOutput where
  nodes : List (String × List (String × NodeDetail))
  lines : LinesResult
  subnodes : List (String × List (String × List SubRect))
deriving DecidableEq

/-- The layout pipeline of `AlluvialChart.__init__` (lines 73-75):
`make_nodes`, then `make_lines`, then `make_subnodes`.  Color assignment
(line 76) touches only line colors, never geometry, so the geometric
output is a pure function of this input. -/
def runLayout (inp : LayoutInput) : LayoutOutput :=
  let details := makeNodes inp.cfg inp.nodeData inp.lineData
  let lr := makeLines inp.cfg inp.nodeData details inp.lineData
    inp.sortedCategory
  ⟨details, lr,
   makeSubnodes inp.lineData inp.nodeData details lr.yPositionsList
     lr.spacingsList⟩

/-- `np.linspace(a, b, num=n)`: `n` evenly spaced samples including both
endpoints when `n ≥ 2`; `[a]` when `n = 1`; empty when `n = 0`. -/
def linspace (a b : ℚ) : ℕ → List ℚ
  | 0 => []
  | 1 => [a]
  | m + 2 => (List.range (m + 2)).map
      (fun i : ℕ => a + (b - a) * (i : ℚ) / (((m + 1 : ℕ)) : ℚ))

/-- `StraightLine.get_line_points`, line 71:
`actual_num = int(abs(finish[0] - start[0]) * num)` (the argument is
nonnegative, so `int` truncation is the natural floor). -/
def straightActualNum (s : SegRec) (num : ℕ) : ℕ :=
  ⌊|s.finish.1 - s.start.1| * (num : ℚ)⌋₊

/-- `StraightLine.get_line_points`, lines 63-75: the sampled x and y
coordinate lists. -/
def straightGetLinePoints (s : SegRec) (num : ℕ) : List ℚ × List ℚ :=
  (linspace s.start.1 s.finish.1 (straightActualNum s num),
   linspace s.start.2 s.finish.2 (straightActualNum s num))

/-- The sampled points of a straight segment as (x, y) pairs. -/
def straightPoints (s : SegRec) (num : ℕ) : List (ℚ × ℚ) :=
  (straightGetLinePoints s num).1.zip (straightGetLinePoints s num).2

/-- The cubic-Bezier x coordinate of `CurvedLine.get_line_points`
(lines 135-145): both control points sit at the horizontal midpoint. -/
def bezierX (s : SegRec) (t : ℚ) : ℚ :=
  (1 - t) ^ 3 * s.start.1
    + 3 * (1 - t) ^ 2 * t * (s.start.1 + (s.finish.1 - s.start.1) / 2)
    + 3 * (1 - t) * t ^ 2 * (s.start.1 + (s.finish.1 - s.start.1) / 2)
    + t ^ 3 * s.finish.1

/-- The cubic-Bezier y coordinate of `CurvedLine.get_line_points`
(lines 135-139, 146-151): the control points carry the start and finish
y values. -/
def bezierY (s : SegRec) (t : ℚ) : ℚ :=
  (1 - t) ^ 3 * s.start.2 + 3 * (1 - t) ^ 2 * t * s.start.2
    + 3 * (1 - t) * t ^ 2 * s.finish.2 + t ^ 3 * s.finish.2

/-- `CurvedLine.get_line_points`, lines 129-132: the in-place swap of
`self.start` and `self.finish` when the segment runs right-to-left. -/
def curvedNormalize (s : SegRec) : SegRec :=
  if s.finish.1 < s.start.1 then ⟨s.finish, s.start, s.name⟩ else s

/-- `CurvedLine.get_line_points`, lines 121-152: returns the (possibly
swapped) segment state together with the sampled coordinate lists. -/
def curvedGetLinePoints (s : SegRec) (num : ℕ) : SegRec × (List ℚ × List ℚ) :=
  ((curvedNormalize s),
   ((linspace 0 1 ⌊|(curvedNormalize s).finish.1
        - (curvedNormalize s).start.1| * (num : ℚ)⌋₊).map
      (bezierX (curvedNormalize s)),
    (linspace 0 1 ⌊|(curvedNormalize s).finish.1
        - (curvedNormalize s).start.1| * (num : ℚ)⌋₊).map
      (bezierY (curvedNormalize s))))

/-- The sampled points of a curved segment as (x, y) pairs. -/
def curvedPoints (s : SegRec) (num : ℕ) : List (ℚ × ℚ) :=
  ((curvedGetLinePoints s num).2.1).zip ((curvedGetLinePoints s num).2.2)

/-- The Python exceptions `_get_line_y_positions` can raise on a category
with zero lines. -/
inductive PyErr where
  | indexErr
  | zeroDivErr
deriving DecidableEq, Repr

/-- `_get_line_y_positions` with its failure modes evaluated in source
order: line 267 indexes `list(ordered_line_data.values())[0]`, which
raises `IndexError` on an empty mapping; only afterwards would the
spacing division by `len(ordered_line_data)` at line 275 raise
`ZeroDivisionError`. -/
def getLineYPositionsChecked (catDetails : List (String × NodeDetail))
    (subnodesOf : String → Option (List String))
    (lineSubnodeAt : LineId → Option String)
    (ordered : List (LineId × String)) :
    Except PyErr (List (LineId × ℚ)) :=
  if ordered.isEmpty then Except.error PyErr.indexErr
  else if ordered.length = 0 then Except.error PyErr.zeroDivErr
  else Except.ok (getLineYPositions catDetails subnodesOf lineSubnodeAt
    ordered (lineSpacingOf catDetails ordered.length))

/-! The theorems: each claim is settled against the definitions above. -/

/-- The heights produced by `placeNodesY` depend only on the counts. -/
theorem placeNodesY_heights (minY sep dist : ℚ) (total : ℕ)
    (counts : List (String × ℕ)) (y0 : ℚ) :
    (placeNodesY minY sep dist total counts y0).map (fun d => d.2.2) =
      counts.map (fun p => nodeHeight minY dist total p.2) := by
  induction counts generalizing y0 with
  | nil => rfl
  | cons hd tl ih =>
    obtain ⟨nd, c⟩ := hd
    simp [placeNodesY, ih]

/-- Summing the per-node heights over a category with positive total. -/
theorem sum_nodeHeight (minY dist : ℚ) (total : ℕ)
    (counts : List (String × ℕ)) :
    ((counts.map (fun p => nodeHeight minY dist total p.2)).sum) =
      (counts.length : ℚ) * minY
        + (((counts.map (fun p => (p.2 : ℚ))).sum) / (total : ℚ)) * dist
      ∨ ¬ 0 < total := by
  by_cases h : 0 < total
  · left
    induction counts with
    | nil => simp
    | cons hd tl ih =>
      simp only [List.map_cons, List.sum_cons, List.length_cons, ih]
      simp only [nodeHeight, if_pos h]
      push_cast
      ring
  · right; exact h

/-- C2: with positive total flow, the heights of `makeNodesCategoryY`
(each already containing the reserved minimum) together with the
`(number of nodes − 1)` separations add up to exactly `1`. -/
theorem category_heights_sum_one (minY sep : ℚ) (counts : List (String × ℕ))
    (htotal : 0 < (counts.map Prod.snd).sum) :
    ((makeNodesCategoryY minY sep counts).map (fun d => d.2.2)).sum
        + ((counts.length : ℚ) - 1) * sep = 1 := by
  have hs := placeNodesY_heights minY sep
    (ySpaceDistributed minY sep counts.length)
    ((counts.map Prod.snd).sum) counts 1
  rw [makeNodesCategoryY, hs]
  rcases sum_nodeHeight minY (ySpaceDistributed minY sep counts.length)
      ((counts.map Prod.snd).sum) counts with h | h
  · rw [h]
    have hcast : ((counts.map (fun p => ((p.2 : ℕ) : ℚ))).sum)
        = (((counts.map Prod.snd).sum : ℕ) : ℚ) := by
      rw [Nat.cast_list_sum, List.map_map]
      rfl
    rw [hcast]
    have hne : (((counts.map Prod.snd).sum : ℕ) : ℚ) ≠ 0 := by
      exact_mod_cast Nat.pos_iff_ne_zero.mp htotal
    rw [div_self hne, ySpaceDistributed]
    ring
  · exact absurd htotal h

/-- C2 witness instance: two nodes with counts 3 and 1. -/
theorem category_heights_sum_one_example :
    0 < ((([("a", 3), ("b", 1)] : List (String × ℕ)).map Prod.snd).sum) ∧
    ((makeNodesCategoryY (1/100) (1/20) [("a", 3), ("b", 1)]).map
        (fun d => d.2.2)).sum
      + ((([("a", 3), ("b", 1)] : List (String × ℕ)).length : ℚ) - 1)
          * (1/20) = 1 := by
  constructor
  · decide
  · exact category_heights_sum_one (1/100) (1/20) [("a", 3), ("b", 1)]
      (by decide)

/-- Every height produced by `placeNodesY` is `nodeHeight` of some count. -/
theorem placeNodesY_height_shape (minY sep dist : ℚ) (total : ℕ)
    (counts : List (String × ℕ)) (y0 : ℚ) :
    ∀ d ∈ placeNodesY minY sep dist total counts y0,
      ∃ c, d.2.2 = nodeHeight minY dist total c := by
  induction counts generalizing y0 with
  | nil => intro d hd; simp [placeNodesY] at hd
  | cons hd tl ih =>
    obtain ⟨nd, c⟩ := hd
    intro d hdm
    simp only [placeNodesY, List.mem_cons] at hdm
    rcases hdm with h | h
    · exact ⟨c, by rw [h]⟩
    · exact ih _ d h

/-- C6 (amended): when the category's total flow is positive and the
distributable budget `y_space_distributed` is nonnegative, every node
height of `makeNodesCategoryY` is at least the configured minimum. -/
theorem node_height_ge_min (minY sep : ℚ) (counts : List (String × ℕ))
    (htotal : 0 < (counts.map Prod.snd).sum)
    (hdist : 0 ≤ ySpaceDistributed minY sep counts.length) :
    ∀ d ∈ makeNodesCategoryY minY sep counts, minY ≤ d.2.2 := by
  intro d hd
  obtain ⟨c, hc⟩ := placeNodesY_height_shape minY sep
    (ySpaceDistributed minY sep counts.length)
    ((counts.map Prod.snd).sum) counts 1 d hd
  rw [hc, nodeHeight, if_pos htotal]
  have : (0 : ℚ) ≤ (c : ℚ) / (((counts.map Prod.snd).sum : ℕ) : ℚ)
      * ySpaceDistributed minY sep counts.length :=
    mul_nonneg (div_nonneg (by positivity) (by positivity)) hdist
  linarith

/-- C6 witness instance: one node, one line, default minimum and gap. -/
theorem node_height_ge_min_example :
    (0 < ((([("a", 1)] : List (String × ℕ)).map Prod.snd).sum)
      ∧ 0 ≤ ySpaceDistributed (1/100) (1/20)
          ([("a", 1)] : List (String × ℕ)).length)
    ∧ ∀ d ∈ makeNodesCategoryY (1/100) (1/20) [("a", 1)], (1/100 : ℚ) ≤ d.2.2 := by
  refine ⟨⟨by decide, by simp [ySpaceDistributed]; norm_num⟩, ?_⟩
  exact node_height_ge_min (1/100) (1/20) [("a", 1)] (by decide)
    (by simp [ySpaceDistributed]; norm_num)

/-- C6 counterexample: in a category whose total flow is zero, a node's
computed height is `0`, strictly below the configured minimum `1/4`. -/
theorem node_height_min_counterexample :
    ((makeNodesCategoryY (1/4) 0 [("a", 0)]).map (fun d => d.2.2)) = [0]
      ∧ ¬ ((1/4 : ℚ) ≤ 0) := by
  constructor
  · simp [makeNodesCategoryY, placeNodesY, nodeHeight]
  · norm_num

/-- The number of entries `makeNodesCategoryY` yields. -/
theorem makeNodesCategoryY_length (minY sep : ℚ)
    (counts : List (String × ℕ)) :
    (makeNodesCategoryY minY sep counts).length = counts.length := by
  have := placeNodesY_heights minY sep
    (ySpaceDistributed minY sep counts.length)
    ((counts.map Prod.snd).sum) counts 1
  have hlen := congrArg List.length this
  simpa [makeNodesCategoryY] using hlen

/-- Pairing each count entry with its placed node: the height column. -/
theorem placeNodesY_zip (minY sep dist : ℚ) (total : ℕ) :
    ∀ (counts : List (String × ℕ)) (y0 : ℚ),
      ∀ pr ∈ counts.zip (placeNodesY minY sep dist total counts y0),
        pr.2.2.2 = nodeHeight minY dist total pr.1.2 := by
  intro counts
  induction counts with
  | nil => intro y0 pr hpr; simp at hpr
  | cons hd tl ih =>
    obtain ⟨nd, c⟩ := hd
    intro y0 pr hpr
    simp only [placeNodesY, List.zip_cons_cons, List.mem_cons] at hpr
    rcases hpr with rfl | hpr
    · rfl
    · exact ih _ pr hpr

/-- C7 (amended): a node with zero flow receives exactly the configured
minimum height when the category's total flow is positive, and height `0`
when the total is zero (`pr` pairs a node's count entry with its placed
`(label, y, height)` record). -/
theorem zero_flow_node_height (minY sep : ℚ) (counts : List (String × ℕ))
    (pr : (String × ℕ) × (String × ℚ × ℚ))
    (hpr : pr ∈ counts.zip (makeNodesCategoryY minY sep counts))
    (hzero : pr.1.2 = 0) :
    pr.2.2.2 = if 0 < (counts.map Prod.snd).sum then minY else 0 := by
  have hh := placeNodesY_zip minY sep
    (ySpaceDistributed minY sep counts.length)
    ((counts.map Prod.snd).sum) counts 1 pr hpr
  rw [hh, hzero, nodeHeight]
  by_cases h : 0 < (counts.map Prod.snd).sum
  · simp [h]
  · simp [h]

/-- C7 witness instance: node `b` has zero flow in a category with total
flow 1, so it receives the minimum height `1/4`. -/
theorem zero_flow_node_height_example :
    ((("b", 0), ("b", (0 : ℚ), (1/4 : ℚ)))
        ∈ ([("a", 1), ("b", 0)] : List (String × ℕ)).zip
            (makeNodesCategoryY (1/4) 0 [("a", 1), ("b", 0)]))
      ∧ ((1/4 : ℚ) = if 0 < ((([("a", 1), ("b", 0)] : List (String × ℕ)).map
            Prod.snd).sum) then (1/4 : ℚ) else 0) := by
  have hmem : ((("b", 0), ("b", (0 : ℚ), (1/4 : ℚ)))
      ∈ ([("a", 1), ("b", 0)] : List (String × ℕ)).zip
          (makeNodesCategoryY (1/4) 0 [("a", 1), ("b", 0)])) := by
    simp [makeNodesCategoryY, placeNodesY, nodeHeight, ySpaceDistributed]
    norm_num
  refine ⟨hmem, ?_⟩
  exact (zero_flow_node_height (1/4) 0 [("a", 1), ("b", 0)]
    (("b", 0), ("b", (0 : ℚ), (1/4 : ℚ))) hmem rfl).symm

/-- C7 counterexample: node `b` carries no line, yet its computed height is
`1/4` (the configured minimum), not `0`, because the category total is
positive. -/
theorem zero_flow_node_counterexample :
    ((makeNodesCategoryY (1/4) 0 [("a", 1), ("b", 0)]).map (fun d => d.2.2))
        = [3/4, 1/4]
      ∧ ((1/4 : ℚ) ≠ 0) := by
  constructor
  · simp [makeNodesCategoryY, placeNodesY, nodeHeight, ySpaceDistributed]
    norm_num
  · norm_num

/-- The keys of `assignSlots` are exactly the ids it was given. -/
theorem assignSlots_keys (ids : List LineId) (y0 sp : ℚ) :
    (assignSlots ids y0 sp).map Prod.fst = ids := by
  induction ids generalizing y0 with
  | nil => rfl
  | cons id ids ih => simp [assignSlots, ih]

/-- Every slot `assignSlots` hands out lies at or below the starting slot. -/
theorem assignSlots_le (ids : List LineId) (y0 sp : ℚ) (hsp : 0 ≤ sp) :
    ∀ p ∈ assignSlots ids y0 sp, p.2 ≤ y0 := by
  induction ids generalizing y0 with
  | nil => intro p hp; simp [assignSlots] at hp
  | cons id ids ih =>
    intro p hp
    simp only [assignSlots, List.mem_cons] at hp
    rcases hp with h | h
    · rw [h]
    · have := ih (y0 - sp) p h
      linarith

/-- Within one `assignSlots` block, a line listed earlier receives a
strictly higher slot than a distinct line listed later. -/
theorem assignSlots_order (ids : List LineId) (y0 sp : ℚ) (hsp : 0 < sp)
    (hnd : ids.Nodup) {A B : LineId} (hsub : List.Sublist [A, B] ids)
    {yA yB : ℚ} (hA : (A, yA) ∈ assignSlots ids y0 sp)
    (hB : (B, yB) ∈ assignSlots ids y0 sp) : yB < yA := by
  induction ids generalizing y0 with
  | nil => exact absurd hA (by simp [assignSlots])
  | cons x t ih =>
    rw [List.nodup_cons] at hnd
    cases hsub with
    | cons _ htail =>
      -- the [A, B] pattern lives entirely in the tail
      have hAt : A ∈ t := htail.mem (by simp)
      have hBt : B ∈ t := htail.mem (by simp)
      have hxA : x ≠ A := fun h => hnd.1 (h ▸ hAt)
      have hxB : x ≠ B := fun h => hnd.1 (h ▸ hBt)
      simp only [assignSlots, List.mem_cons, Prod.mk.injEq] at hA hB
      rcases hA with ⟨hx, _⟩ | hA
      · exact absurd hx.symm hxA
      rcases hB with ⟨hx, _⟩ | hB
      · exact absurd hx.symm hxB
      exact ih (y0 - sp) hnd.2 htail hA hB
    | cons₂ _ htail =>
      -- x = A and B occurs in the tail
      have hBt : B ∈ t := htail.mem (by simp)
      have hxB : A ≠ B := fun h => hnd.1 (h ▸ hBt)
      simp only [assignSlots, List.mem_cons, Prod.mk.injEq] at hA hB
      rcases hB with ⟨hx, _⟩ | hB
      · exact absurd hx.symm hxB
      have hyB : yB ≤ y0 - sp :=
        assignSlots_le t (y0 - sp) sp (le_of_lt hsp) (B, yB) hB
      rcases hA with ⟨_, hy⟩ | hA
      · rw [hy]; linarith
      · exact absurd (assignSlots_keys t (y0 - sp) sp ▸
          List.mem_map_of_mem Prod.fst hA) hnd.1

/-- In a dict embedding with distinct keys, a key determines its value. -/
theorem pair_unique {β : Type} {l : List (LineId × β)}
    (h : (l.map Prod.fst).Nodup) {a : LineId} {x y : β}
    (hx : (a, x) ∈ l) (hy : (a, y) ∈ l) : x = y :=
  congrArg Prod.snd (List.inj_on_of_nodup_map h hx hy rfl)

/-- Any id matched into a node's block comes from an `ordered` entry
targeting that node, and carries a declared subnode tag when the node
declares subnodes. -/
theorem nodeMatchIds_mem {subs : Option (List String)}
    {lineSubnodeAt : LineId → Option String}
    {ordered : List (LineId × String)} {node : String} {a : LineId}
    (ha : a ∈ nodeMatchIds subs lineSubnodeAt ordered node) :
    (a, node) ∈ ordered
      ∧ ∀ l, subs = some l → ∃ s ∈ l, lineSubnodeAt a = some s := by
  cases subs with
  | none =>
    simp only [nodeMatchIds, List.mem_map, List.mem_filter, beq_iff_eq] at ha
    obtain ⟨p, ⟨hp, hpn⟩, hpa⟩ := ha
    refine ⟨?_, by simp⟩
    rw [← hpa, ← hpn]
    simpa using hp
  | some l =>
    simp only [nodeMatchIds, List.mem_flatMap, List.mem_map, List.mem_filter,
      Bool.and_eq_true, beq_iff_eq] at ha
    obtain ⟨s, hs, p, ⟨hp, hpn, hptag⟩, hpa⟩ := ha
    subst hpa
    constructor
    · rw [← hpn]
      simpa using hp
    · intro l' hl'
      obtain rfl : l = l' := by injection hl'
      exact ⟨s, hs, hptag⟩

/-- A body list is a sublist of the flat map at any member. -/
theorem flatMap_sublist_of_mem {α β : Type} {a : α} {l : List α}
    (f : α → List β) (ha : a ∈ l) : List.Sublist (f a) (l.flatMap f) := by
  induction l with
  | nil => cases ha
  | cons x t ih =>
    rw [List.flatMap_cons]
    rcases List.mem_cons.mp ha with rfl | ht
    · exact List.sublist_append_left _ _
    · exact (ih ht).trans (List.sublist_append_right _ _)

/-- The ids of a node's block have no duplicates when the caller-supplied
dict has distinct keys and the declared subnode list has no duplicates. -/
theorem nodeMatchIds_nodup {subs : Option (List String)}
    {lineSubnodeAt : LineId → Option String}
    {ordered : List (LineId × String)} {node : String}
    (hkeys : (ordered.map Prod.fst).Nodup)
    (hsubs : ∀ l, subs = some l → l.Nodup) :
    (nodeMatchIds subs lineSubnodeAt ordered node).Nodup := by
  cases subs with
  | none =>
    exact List.Nodup.sublist
      (List.Sublist.map Prod.fst (List.filter_sublist ordered)) hkeys
  | some l =>
    have hl := hsubs l rfl
    rw [nodeMatchIds, List.flatMap]
    rw [List.nodup_flatten]
    constructor
    · intro s hs
      simp only [List.mem_map] at hs
      obtain ⟨x, _, rfl⟩ := hs
      exact List.Nodup.sublist
        (List.Sublist.map Prod.fst (List.filter_sublist ordered)) hkeys
    · rw [List.pairwise_map]
      refine List.Pairwise.imp ?_ hl
      intro s s' hne
      intro a has has'
      simp only [List.mem_map, List.mem_filter, Bool.and_eq_true,
        beq_iff_eq] at has has'
      obtain ⟨p, ⟨_, _, htag⟩, hpa⟩ := has
      obtain ⟨q, ⟨_, _, htag'⟩, hqa⟩ := has'
      rw [hpa] at htag
      rw [hqa] at htag'
      rw [htag] at htag'
      exact hne (by injection htag')

/-- When two lines target the same node (with the same declared subnode
tag if the node has subnodes) and one precedes the other in the
caller-supplied order, they appear in the node's block in that order. -/
theorem nodeMatchIds_pair_sublist {subs : Option (List String)}
    {lineSubnodeAt : LineId → Option String}
    {ordered : List (LineId × String)} {node : String}
    (hkeys : (ordered.map Prod.fst).Nodup) {A B : LineId}
    (hA : (A, node) ∈ ordered) (hB : (B, node) ∈ ordered)
    (horder : List.Sublist [A, B] (ordered.map Prod.fst))
    (hgrp : ∀ l, subs = some l →
      ∃ s ∈ l, lineSubnodeAt A = some s ∧ lineSubnodeAt B = some s) :
    List.Sublist [A, B] (nodeMatchIds subs lineSubnodeAt ordered node) := by
  obtain ⟨l', hl', hmap⟩ := List.sublist_map_iff.mp horder
  match l', hmap with
  | [pA, pB], hmap =>
    have hpA : pA.1 = A := by
      have := congrArg (fun t => t.headD 0) hmap
      simpa using this.symm
    have hpB : pB.1 = B := by
      have := congrArg (fun t => (t.drop 1).headD 0) hmap
      simpa using this.symm
    have hpAm : pA ∈ ordered := hl'.mem (by simp)
    have hpBm : pB ∈ ordered := hl'.mem (by simp)
    have hpA2 : pA = (A, node) := by
      obtain ⟨a, b⟩ := pA
      simp only at hpA
      subst hpA
      exact Prod.ext rfl (pair_unique hkeys hpAm hA)
    have hpB2 : pB = (B, node) := by
      obtain ⟨a, b⟩ := pB
      simp only at hpB
      subst hpB
      exact Prod.ext rfl (pair_unique hkeys hpBm hB)
    subst hpA2
    subst hpB2
    cases subs with
    | none =>
      have hf : List.Sublist ([(A, node), (B, node)].filter
          (fun p => p.2 == node)) (ordered.filter (fun p => p.2 == node)) :=
        List.Sublist.filter _ hl'
      simp only [List.filter_cons, List.filter_nil, beq_self_eq_true,
        if_pos] at hf
      have := List.Sublist.map Prod.fst hf
      simpa [nodeMatchIds] using this
    | some l =>
      obtain ⟨s, hs, htagA, htagB⟩ := hgrp l rfl
      have hf : List.Sublist ([(A, node), (B, node)].filter
          (fun p => p.2 == node && lineSubnodeAt p.1 == some s))
          (ordered.filter (fun p => p.2 == node && lineSubnodeAt p.1 == some s)) :=
        List.Sublist.filter _ hl'
      simp only [List.filter_cons, List.filter_nil, htagA, htagB,
        beq_self_eq_true, Bool.and_self, if_pos] at hf
      have hmapf := List.Sublist.map Prod.fst hf
      refine hmapf.trans ?_
      exact flatMap_sublist_of_mem
        (fun s => (ordered.filter
          (fun p => p.2 == node && lineSubnodeAt p.1 == some s)).map Prod.fst)
        hs

/-- C1 (amended): within one sweep step, if line `A` precedes line `B` in
the `ordered_line_data` handed to `_get_line_y_positions` — i.e. in the
*previous* category's slot order, not necessarily the anchor's — and both
map to the same node of the current category (with the same declared
subnode tag when that node declares subnodes), then `A`'s slot y is
strictly greater than `B`'s. -/
theorem getLineYPositions_order (catDetails : List (String × NodeDetail))
    (subnodesOf : String → Option (List String))
    (lineSubnodeAt : LineId → Option String)
    (ordered : List (LineId × String)) (spacing : ℚ)
    (hsp : 0 < spacing)
    (hkeys : (ordered.map Prod.fst).Nodup)
    (hnames : (catDetails.map Prod.fst).Nodup)
    {A B : LineId} {n : String}
    (hsubs : ∀ l, subnodesOf n = some l → l.Nodup)
    (horder : List.Sublist [A, B] (ordered.map Prod.fst))
    (hA : (A, n) ∈ ordered) (hB : (B, n) ∈ ordered)
    (hgroup : ∀ l, subnodesOf n = some l →
      lineSubnodeAt A = lineSubnodeAt B)
    {yA yB : ℚ}
    (hyA : (A, yA) ∈ getLineYPositions catDetails subnodesOf lineSubnodeAt
      ordered spacing)
    (hyB : (B, yB) ∈ getLineYPositions catDetails subnodesOf lineSubnodeAt
      ordered spacing) :
    yB < yA := by
  rw [getLineYPositions, List.mem_flatMap] at hyA hyB
  obtain ⟨nd, hndm, hyA⟩ := hyA
  obtain ⟨nd', hndm', hyB⟩ := hyB
  -- locate A's and B's blocks: both are the block of the node labelled n
  have hAids : A ∈ nodeMatchIds (subnodesOf nd.1) lineSubnodeAt ordered nd.1 := by
    have := List.mem_map_of_mem Prod.fst hyA
    rwa [assignSlots_keys] at this
  have hBids : B ∈ nodeMatchIds (subnodesOf nd'.1) lineSubnodeAt ordered nd'.1 := by
    have := List.mem_map_of_mem Prod.fst hyB
    rwa [assignSlots_keys] at this
  obtain ⟨hAm, hAtag⟩ := nodeMatchIds_mem hAids
  obtain ⟨hBm, hBtag⟩ := nodeMatchIds_mem hBids
  have hnd1 : nd.1 = n := (pair_unique hkeys hAm hA).symm ▸ rfl
  have hnd1' : nd'.1 = n := (pair_unique hkeys hBm hB).symm ▸ rfl
  have hndeq : nd = nd' :=
    List.inj_on_of_nodup_map hnames hndm hndm' (hnd1.trans hnd1'.symm)
  subst hndeq
  rw [hnd1] at hyA hyB
  -- same block: use the per-block ordering lemma
  have hgrp : ∀ l, subnodesOf n = some l →
      ∃ s ∈ l, lineSubnodeAt A = some s ∧ lineSubnodeAt B = some s := by
    intro l hl
    obtain ⟨s, hs, htag⟩ := hAtag l (by rw [hnd1, hl])
    exact ⟨s, hs, htag, (hgroup l hl) ▸ htag⟩
  exact assignSlots_order _ _ spacing hsp
    (nodeMatchIds_nodup hkeys hsubs)
    (nodeMatchIds_pair_sublist hkeys hA hB horder hgrp) hyA hyB

/-- C1 amended-claim witness instance: two lines into one node, line 1
listed first gets the strictly higher slot. -/
theorem getLineYPositions_order_example :
    (1, (11/20 : ℚ)) ∈ getLineYPositions [("n", ⟨0, 0, 0, 1⟩)]
        (fun _ => none) (fun _ => none) [(1, "n"), (2, "n")] (1/10)
    ∧ (2, (9/20 : ℚ)) ∈ getLineYPositions [("n", ⟨0, 0, 0, 1⟩)]
        (fun _ => none) (fun _ => none) [(1, "n"), (2, "n")] (1/10)
    ∧ ((9/20 : ℚ) < 11/20) := by
  have h1 : (1, (11/20 : ℚ)) ∈ getLineYPositions [("n", ⟨0, 0, 0, 1⟩)]
      (fun _ => none) (fun _ => none) [(1, "n"), (2, "n")] (1/10) := by
    simp [getLineYPositions, nodeMatchIds, assignSlots]
    norm_num
  have h2 : (2, (9/20 : ℚ)) ∈ getLineYPositions [("n", ⟨0, 0, 0, 1⟩)]
      (fun _ => none) (fun _ => none) [(1, "n"), (2, "n")] (1/10) := by
    simp [getLineYPositions, nodeMatchIds, assignSlots]
    norm_num
  refine ⟨h1, h2, ?_⟩
  have hA : ((1 : LineId), "n") ∈ [((1 : LineId), "n"), (2, "n")] := by decide
  have hB : ((2 : LineId), "n") ∈ [((1 : LineId), "n"), (2, "n")] := by decide
  have horder : List.Sublist [(1 : LineId), 2]
      (List.map Prod.fst [((1 : LineId), "n"), (2, "n")]) := by decide
  exact getLineYPositions_order [("n", ⟨0, 0, 0, 1⟩)] (fun _ => none)
    (fun _ => none) [(1, "n"), (2, "n")] (1/10) (by norm_num) (by decide)
    (by decide) (fun l hl => by cases hl) horder hA hB
    (fun l hl => by cases hl) h1 h2

set_option maxHeartbeats 4000000 in
/-- C1 counterexample: line 1 precedes line 2 in the anchor category's
slot order, both map to the same node `m` in category `D` (reached by the
rightward sweep), yet line 1's slot y there is `11/40`, *not* greater than
line 2's `29/40`: the sweep hands each category the previous category's
regrouped order, not the anchor's. -/
theorem sweep_order_counterexample :
    cexLines.anchorYs.map Prod.fst = [1, 2]
    ∧ lineTargetAt cexLineData 1 "D" = some ⟨"m", none⟩
    ∧ lineTargetAt cexLineData 2 "D" = some ⟨"m", none⟩
    ∧ cexLines.rightSteps.map SweepStep.cat = ["C", "D"]
    ∧ yAt cexLines "D" 1 = some (11/40)
    ∧ yAt cexLines "D" 2 = some (29/40)
    ∧ ¬ ((11/40 : ℚ) > 29/40) := by
  refine ⟨?_, by simp [lineTargetAt, cexLineData, List.lookup],
    by simp [lineTargetAt, cexLineData, List.lookup], ?_, ?_, ?_,
    by norm_num⟩
  · simp [cexLines, makeLines, makeNodes, makeNodesCategoryY,
      placeNodesY, nodeHeight, ySpaceDistributed, nodeCount, lineTargetAt,
      categorySlots, lineSpacingOf, getLineYPositions, nodeMatchIds,
      assignSlots, orderedFor, subnodesOfIn, lineSubnodeIn,
      getLineXPosition, cexConfig, cexNodeData, cexLineData, List.lookup]
  · simp [cexLines, makeLines, makeNodes, makeNodesCategoryY,
      placeNodesY, nodeHeight, ySpaceDistributed, nodeCount, lineTargetAt,
      categorySlots, lineSpacingOf, getLineYPositions, nodeMatchIds,
      assignSlots, orderedFor, subnodesOfIn, lineSubnodeIn, sweepYs,
      buildSteps, extendLineSegments, getLineXPosition, cexConfig,
      cexNodeData, cexLineData, List.lookup, List.indexOf, List.findIdx,
      List.findIdx.go]
  · simp [yAt, cexLines, makeLines, makeNodes, makeNodesCategoryY,
      placeNodesY, nodeHeight, ySpaceDistributed, nodeCount, lineTargetAt,
      categorySlots, lineSpacingOf, getLineYPositions, nodeMatchIds,
      assignSlots, orderedFor, subnodesOfIn, lineSubnodeIn, sweepYs,
      buildSteps, extendLineSegments, getLineXPosition,
      LinesResult.yPositionsList, cexConfig, cexNodeData,
      cexLineData, List.lookup, List.indexOf, List.findIdx, List.findIdx.go]
    norm_num
  · simp [yAt, cexLines, makeLines, makeNodes, makeNodesCategoryY,
      placeNodesY, nodeHeight, ySpaceDistributed, nodeCount, lineTargetAt,
      categorySlots, lineSpacingOf, getLineYPositions, nodeMatchIds,
      assignSlots, orderedFor, subnodesOfIn, lineSubnodeIn, sweepYs,
      buildSteps, extendLineSegments, getLineXPosition,
      LinesResult.yPositionsList, cexConfig, cexNodeData,
      cexLineData, List.lookup, List.indexOf, List.findIdx, List.findIdx.go]
    norm_num

/-- `List.lookup` through its `find?` form. -/
theorem lookup_eq_find {β : Type} (l : List (LineId × β)) (a : LineId) :
    List.lookup a l = (l.find? (fun p => a == p.1)).map Prod.snd := by
  induction l with
  | nil => rfl
  | cons p t ih =>
    obtain ⟨k, v⟩ := p
    simp only [List.lookup, List.find?]
    cases h : (a == k) <;> simp [h, ih]

/-- Looking a key up in a key-preserving map of a dict finds the mapped
value of the entry `find?` locates. -/
theorem lookup_map_pair {β γ : Type} (l : List (LineId × β))
    (g : LineId × β → γ) (a : LineId) :
    List.lookup a (l.map (fun p => (p.1, g p)))
      = (l.find? (fun p => a == p.1)).map g := by
  induction l with
  | nil => rfl
  | cons p t ih =>
    simp only [List.map_cons, List.lookup, List.find?]
    cases h : (a == p.1) <;> simp [h, ih]

/-- `buildSteps` yields one step per chain entry. -/
theorem buildSteps_length (cfg : Config) (categories : List String)
    (details : List (String × List (String × NodeDetail)))
    (lineData : LineData) (dir : Direction) (x0 : ℚ)
    (ys0 : List (LineId × ℚ))
    (chain : List (String × ℚ × List (LineId × ℚ))) :
    (buildSteps cfg categories details lineData dir x0 ys0 chain).length
      = chain.length := by
  induction chain generalizing x0 ys0 with
  | nil => rfl
  | cons c rest ih =>
    obtain ⟨cat, spacing, ys⟩ := c
    simp [buildSteps, ih]

/-- `sweepYs` yields one entry per swept category. -/
theorem sweepYs_length (nodeData : NodeData)
    (details : List (String × List (String × NodeDetail)))
    (lineData : LineData) (cats : List String)
    (ys0 : List (LineId × ℚ)) :
    (sweepYs nodeData details lineData cats ys0).length = cats.length := by
  induction cats generalizing ys0 with
  | nil => rfl
  | cons cat rest ih => simp [sweepYs, ih]

/-- `extend_line_segments` yields one step per swept category. -/
theorem extendLineSegments_length (cfg : Config) (nodeData : NodeData)
    (details : List (String × List (String × NodeDetail)))
    (lineData : LineData) (dir : Direction) (x0 : ℚ)
    (ys0 : List (LineId × ℚ)) (cats : List String) :
    (extendLineSegments cfg nodeData details lineData dir x0 ys0 cats).length
      = cats.length := by
  rw [extendLineSegments, buildSteps_length, sweepYs_length]

/-- Every step of `buildSteps` appends exactly a straight run and a curved
connector per line assigned at that step. -/
theorem buildSteps_segs_shape (cfg : Config) (categories : List String)
    (details : List (String × List (String × NodeDetail)))
    (lineData : LineData) (dir : Direction) (x0 : ℚ)
    (ys0 : List (LineId × ℚ))
    (chain : List (String × ℚ × List (LineId × ℚ))) :
    ∀ st ∈ buildSteps cfg categories details lineData dir x0 ys0 chain,
      ∃ g : LineId × ℚ → List Seg, (∀ p, (g p).length = 2)
        ∧ st.segs = st.ys.map (fun p => (p.1, g p)) := by
  induction chain generalizing x0 ys0 with
  | nil => intro st hst; simp [buildSteps] at hst
  | cons c rest ih =>
    obtain ⟨cat, spacing, ys⟩ := c
    intro st hst
    simp only [buildSteps, List.mem_cons] at hst
    rcases hst with rfl | hst
    · cases dir with
      | left =>
        exact ⟨fun p =>
          [mkStraight ((getLineXPosition cfg categories details cat).1, p.2)
             ((getLineXPosition cfg categories details cat).2, p.2)
             (segName lineData cat p.1),
           mkCurved ((getLineXPosition cfg categories details cat).2, p.2)
             (x0, (List.lookup p.1 ys0).getD 0) (segName lineData cat p.1)],
          fun p => rfl, rfl⟩
      | right =>
        exact ⟨fun p =>
          [mkStraight ((getLineXPosition cfg categories details cat).1, p.2)
             ((getLineXPosition cfg categories details cat).2, p.2)
             (segName lineData cat p.1),
           mkCurved ((getLineXPosition cfg categories details cat).1, p.2)
             (x0, (List.lookup p.1 ys0).getD 0) (segName lineData cat p.1)],
          fun p => rfl, rfl⟩
    · exact ih _ _ st hst

/-- The steps of `extend_line_segments` append exactly two segments per
assigned line. -/
theorem extendLineSegments_segs_shape (cfg : Config) (nodeData : NodeData)
    (details : List (String × List (String × NodeDetail)))
    (lineData : LineData) (dir : Direction) (x0 : ℚ)
    (ys0 : List (LineId × ℚ)) (cats : List String) :
    ∀ st ∈ extendLineSegments cfg nodeData details lineData dir x0 ys0 cats,
      ∃ g : LineId × ℚ → List Seg, (∀ p, (g p).length = 2)
        ∧ st.segs = st.ys.map (fun p => (p.1, g p)) :=
  fun st hst => buildSteps_segs_shape cfg (nodeData.map Prod.fst) details
    lineData dir x0 ys0 _ st hst

/-- The anchor step emits exactly one straight run per assigned line. -/
theorem makeLines_anchorSegs_shape (cfg : Config) (nodeData : NodeData)
    (details : List (String × List (String × NodeDetail)))
    (lineData : LineData) (sc : Option String) :
    ∃ g : LineId × ℚ → List Seg, (∀ p, (g p).length = 1)
      ∧ (makeLines cfg nodeData details lineData sc).anchorSegs
        = (makeLines cfg nodeData details lineData sc).anchorYs.map
            (fun p => (p.1, g p)) :=
  ⟨fun p =>
    [mkStraight
       ((getLineXPosition cfg (nodeData.map Prod.fst) details
           (sc.getD ((nodeData.map Prod.fst).headD ""))).1, p.2)
       ((getLineXPosition cfg (nodeData.map Prod.fst) details
           (sc.getD ((nodeData.map Prod.fst).headD ""))).2, p.2)
       (segName lineData (sc.getD ((nodeData.map Prod.fst).headD "")) p.1)],
    fun p => rfl, rfl⟩

/-- C3: after a `make_lines` layout over `K` categories whose anchor is a
declared category, a line assigned a slot at the anchor and at every swept
category owns exactly `2 × (K − 1) + 1` path segments: one straight run
per category and one curved connector per adjacent crossing (the id-label
connector exists only with `plot_id=True` and is excluded). -/
theorem segments_per_line (cfg : Config) (nodeData : NodeData)
    (details : List (String × List (String × NodeDetail)))
    (lineData : LineData) (sc : Option String) (id : LineId)
    (hmem : sc.getD ((nodeData.map Prod.fst).headD "")
      ∈ nodeData.map Prod.fst)
    (hanchor : ((makeLines cfg nodeData details lineData sc).anchorYs.lookup
      id).isSome = true)
    (hsteps : ∀ st ∈ (makeLines cfg nodeData details lineData sc).leftSteps
        ++ (makeLines cfg nodeData details lineData sc).rightSteps,
      (st.ys.lookup id).isSome = true) :
    (segmentsFor (makeLines cfg nodeData details lineData sc) id).length
      = 2 * (nodeData.length - 1) + 1 := by
  obtain ⟨g, hg1, hshape⟩ :=
    makeLines_anchorSegs_shape cfg nodeData details lineData sc
  rw [segmentsFor, List.length_append]
  have hanchor1 : (((makeLines cfg nodeData details lineData
      sc).anchorSegs.lookup id).getD []).length = 1 := by
    rw [hshape, lookup_map_pair]
    rw [lookup_eq_find] at hanchor
    rcases hfind : ((makeLines cfg nodeData details lineData
        sc).anchorYs.find? (fun p => id == p.1)) with _ | p
    · rw [hfind] at hanchor; simp at hanchor
    · simp [hfind, hg1]
  have hsteps2 : ∀ st ∈ (makeLines cfg nodeData details lineData
        sc).leftSteps ++ (makeLines cfg nodeData details lineData
        sc).rightSteps,
      ((st.segs.lookup id).getD []).length = 2 := by
    intro st hst
    obtain ⟨g2, hg2, hsh⟩ : ∃ g2 : LineId × ℚ → List Seg,
        (∀ p, (g2 p).length = 2)
          ∧ st.segs = st.ys.map (fun p => (p.1, g2 p)) := by
      rcases List.mem_append.mp hst with h | h
      · exact extendLineSegments_segs_shape cfg nodeData details lineData
          Direction.left _ _ _ st h
      · exact extendLineSegments_segs_shape cfg nodeData details lineData
          Direction.right _ _ _ st h
    have hiss := hsteps st hst
    rw [lookup_eq_find] at hiss
    rw [hsh, lookup_map_pair]
    rcases hfind : (st.ys.find? (fun p => id == p.1)) with _ | p
    · rw [hfind] at hiss; simp at hiss
    · simp [hfind, hg2]
  have hidx : List.indexOf (sc.getD ((nodeData.map Prod.fst).headD ""))
      (nodeData.map Prod.fst) < (nodeData.map Prod.fst).length :=
    List.indexOf_lt_length.mpr hmem
  have hl : (makeLines cfg nodeData details lineData sc).leftSteps.length
      = (((nodeData.map Prod.fst).take
          (List.indexOf (sc.getD ((nodeData.map Prod.fst).headD ""))
            (nodeData.map Prod.fst))).reverse).length :=
    extendLineSegments_length cfg nodeData details lineData
      Direction.left _ _ _
  have hr : (makeLines cfg nodeData details lineData sc).rightSteps.length
      = ((nodeData.map Prod.fst).drop
          (List.indexOf (sc.getD ((nodeData.map Prod.fst).headD ""))
            (nodeData.map Prod.fst) + 1)).length :=
    extendLineSegments_length cfg nodeData details lineData
      Direction.right _ _ _
  have hlen : ((makeLines cfg nodeData details lineData sc).leftSteps
      ++ (makeLines cfg nodeData details lineData sc).rightSteps).length
      = nodeData.length - 1 := by
    rw [List.length_append, hl, hr]
    rw [List.length_reverse, List.length_take, List.length_drop] at *
    rw [List.length_map] at hidx
    simp only [List.length_map]
    omega
  have hmapconst : ((makeLines cfg nodeData details lineData sc).leftSteps
        ++ (makeLines cfg nodeData details lineData sc).rightSteps).map
        (List.length ∘ (fun st => (st.segs.lookup id).getD []))
      = ((makeLines cfg nodeData details lineData sc).leftSteps
        ++ (makeLines cfg nodeData details lineData sc).rightSteps).map
        (fun _ => 2) :=
    List.map_congr_left (fun st hst => hsteps2 st hst)
  rw [hanchor1, List.length_flatten, List.map_map, hmapconst,
    List.map_const', List.sum_replicate, hlen, smul_eq_mul]
  omega

set_option maxHeartbeats 4000000 in
/-- C3 witness instance: the single line of a three-category layout owns
`2 × (3 − 1) + 1 = 5` path segments. -/
theorem segments_per_line_example :
    (exLines.anchorYs.lookup 1).isSome = true
    ∧ (segmentsFor exLines 1).length = 2 * (exNodeData.length - 1) + 1 := by
  have hanchor : (exLines.anchorYs.lookup 1).isSome = true := by
    simp [exLines, makeLines, makeNodes, makeNodesCategoryY, placeNodesY,
      nodeHeight, ySpaceDistributed, nodeCount, lineTargetAt, categorySlots,
      lineSpacingOf, getLineYPositions, nodeMatchIds, assignSlots,
      subnodesOfIn, lineSubnodeIn, getLineXPosition, defaultConfig,
      exNodeData, exLineData, List.lookup]
  refine ⟨hanchor, ?_⟩
  apply segments_per_line
  · simp [exNodeData]
  · exact hanchor
  · intro st hst
    simp only [exLines] at hst
    rw [List.mem_append] at hst
    rcases hst with h | h
    · simp [makeLines, makeNodes, makeNodesCategoryY, placeNodesY,
        nodeHeight, ySpaceDistributed, nodeCount, lineTargetAt,
        categorySlots, lineSpacingOf, getLineYPositions, nodeMatchIds,
        assignSlots, orderedFor, subnodesOfIn, lineSubnodeIn, sweepYs,
        buildSteps, extendLineSegments, getLineXPosition, defaultConfig,
        exNodeData, exLineData, List.lookup, List.indexOf, List.findIdx,
        List.findIdx.go] at h
      rw [h]
      simp [List.lookup]
    · simp [makeLines, makeNodes, makeNodesCategoryY, placeNodesY,
        nodeHeight, ySpaceDistributed, nodeCount, lineTargetAt,
        categorySlots, lineSpacingOf, getLineYPositions, nodeMatchIds,
        assignSlots, orderedFor, subnodesOfIn, lineSubnodeIn, sweepYs,
        buildSteps, extendLineSegments, getLineXPosition, defaultConfig,
        exNodeData, exLineData, List.lookup, List.indexOf, List.findIdx,
        List.findIdx.go] at h
      rw [h]
      simp [List.lookup]

/-- `placeSubnode` only ever emits a rectangle carrying its own label. -/
theorem placeSubnode_label {spacing subnodeX subnodeWidth : ℚ}
    {ys : List ℚ} {sub : String} {r : SubRect}
    (h : placeSubnode spacing subnodeX subnodeWidth ys sub = some r) :
    r.label = sub := by
  rw [placeSubnode] at h
  cases hs : ys.insertionSort (· ≤ ·) with
  | nil => rw [hs] at h; exact absurd h (by simp [placeSubnodeSorted])
  | cons y0 rest =>
    rw [hs] at h
    rw [placeSubnodeSorted] at h
    by_cases hz : (if 0 < rest.length then
        (y0 :: rest).getLast (List.cons_ne_nil y0 rest) - y0
          + spacing * (9/10)
      else spacing * (9/10)) ≠ 0
    · rw [if_pos hz] at h
      injection h with h
      rw [← h]
    · rw [if_neg hz] at h
      exact absurd h (by simp)

/-- In a `≤`-sorted list every element is at most the last. -/
theorem sorted_le_getLast :
    ∀ (l : List ℚ), List.Sorted (· ≤ ·) l → ∀ (hne : l ≠ []),
      ∀ y ∈ l, y ≤ l.getLast hne := by
  intro l
  induction l with
  | nil => intro _ hne; exact absurd rfl hne
  | cons a t ih =>
    intro hl hne y hy
    cases t with
    | nil =>
      simp only [List.mem_singleton] at hy
      simp [hy, List.getLast]
    | cons b t2 =>
      rw [List.getLast_cons (by simp)]
      rcases List.mem_cons.mp hy with rfl | ht
      · exact le_trans ((List.sorted_cons.mp hl).1 b (by simp))
          (ih (List.sorted_cons.mp hl).2 (by simp) b (by simp))
      · exact ih (List.sorted_cons.mp hl).2 (by simp) y ht

/-- C4: for a declared subnode, `place_subnodes` geometry is a function of
the matching lines' slot ys — stored y = min matching slot y minus half
the slot-spacing margin; height = one margin when exactly one line
matches, else (max − min) plus one margin — and a subnode with no
matching lines is omitted from the output. -/
theorem place_subnodes_geometry (lineData : LineData)
    (cat nodeLabel : String) (nodeX nodeWidth spacing : ℚ)
    (lineYs : List (LineId × ℚ)) (subnodeLabels : List String)
    (sub : String) (hsub : sub ∈ subnodeLabels) (hsp : 0 < spacing) :
    (subnodeLineYs lineData cat nodeLabel sub lineYs = [] →
      ∀ r ∈ placeSubnodes lineData cat nodeLabel nodeX nodeWidth spacing
          lineYs subnodeLabels, r.label ≠ sub)
    ∧ ∀ yMin yMax : ℚ,
        yMin ∈ subnodeLineYs lineData cat nodeLabel sub lineYs →
        (∀ y ∈ subnodeLineYs lineData cat nodeLabel sub lineYs, yMin ≤ y) →
        yMax ∈ subnodeLineYs lineData cat nodeLabel sub lineYs →
        (∀ y ∈ subnodeLineYs lineData cat nodeLabel sub lineYs, y ≤ yMax) →
        (⟨sub, nodeX + nodeWidth * (1 - 9/10) / 2, nodeWidth * (9/10),
           yMin - spacing * (9/10) / 2,
           if (subnodeLineYs lineData cat nodeLabel sub lineYs).length = 1
           then spacing * (9/10)
           else yMax - yMin + spacing * (9/10)⟩ : SubRect)
          ∈ placeSubnodes lineData cat nodeLabel nodeX nodeWidth spacing
              lineYs subnodeLabels := by
  constructor
  · intro hempty r hr hlab
    obtain ⟨sl, hsl, hps⟩ := List.mem_filterMap.mp hr
    have hrl : r.label = sl := placeSubnode_label hps
    have hseq : sl = sub := by rw [← hrl, hlab]
    rw [hseq, placeSubnode, hempty] at hps
    exact absurd hps (by simp [List.insertionSort, placeSubnodeSorted])
  · intro yMin yMax hminm hminlb hmaxm hmaxub
    have hperm := List.perm_insertionSort (· ≤ ·)
      (subnodeLineYs lineData cat nodeLabel sub lineYs)
    have hsorted := List.sorted_insertionSort (· ≤ ·)
      (subnodeLineYs lineData cat nodeLabel sub lineYs)
    cases hs : (subnodeLineYs lineData cat nodeLabel sub
        lineYs).insertionSort (· ≤ ·) with
    | nil =>
      rw [hs] at hperm
      exact absurd (hperm.mem_iff.mpr hminm) (by simp)
    | cons y0 rest =>
      rw [hs] at hperm hsorted
      have hy0m : y0 ∈ subnodeLineYs lineData cat nodeLabel sub lineYs :=
        hperm.mem_iff.mp (by simp)
      have hy0min : y0 = yMin := by
        refine le_antisymm ?_ (hminlb y0 hy0m)
        rcases List.mem_cons.mp (hperm.mem_iff.mpr hminm) with rfl | h
        · exact le_refl _
        · exact (List.sorted_cons.mp hsorted).1 yMin h
      have hlen : (subnodeLineYs lineData cat nodeLabel sub lineYs).length
          = rest.length + 1 := by
        rw [← hperm.length_eq]
        simp
      have hlastmem : (y0 :: rest).getLast (List.cons_ne_nil y0 rest)
          ∈ y0 :: rest := List.getLast_mem _
      have hlast : (y0 :: rest).getLast (List.cons_ne_nil y0 rest)
          = yMax := by
        refine le_antisymm (hmaxub _ (hperm.mem_iff.mp hlastmem)) ?_
        exact sorted_le_getLast _ hsorted (List.cons_ne_nil y0 rest) yMax
          (hperm.mem_iff.mpr hmaxm)
      have hminlemax : yMin ≤ yMax := hminlb yMax hmaxm
      refine List.mem_filterMap.mpr ⟨sub, hsub, ?_⟩
      rw [placeSubnode, hs]
      simp only [placeSubnodeSorted]
      have hne0 : (if 0 < rest.length then
          (y0 :: rest).getLast (List.cons_ne_nil y0 rest) - y0
            + spacing * (9/10)
        else spacing * (9/10)) ≠ 0 := by
        by_cases hr1 : 0 < rest.length
        · rw [if_pos hr1, hlast, hy0min]
          intro hcon
          nlinarith
        · rw [if_neg hr1]
          intro hcon
          nlinarith
      rw [if_pos hne0]
      have hheights : (if 0 < rest.length then
          (y0 :: rest).getLast (List.cons_ne_nil y0 rest) - y0
            + spacing * (9/10)
        else spacing * (9/10))
          = (if (subnodeLineYs lineData cat nodeLabel sub
                lineYs).length = 1
             then spacing * (9/10)
             else yMax - yMin + spacing * (9/10)) := by
        by_cases hr1 : 0 < rest.length
        · rw [if_pos hr1, hlast, hy0min, if_neg (by omega)]
        · rw [if_neg hr1, if_pos (by omega)]
      rw [hheights, hy0min]

/-- C4 witness instance: subnode `X` (two matching lines at `3/4` and
`1/2`) gets stored y `1/2 − m/2` and height `(3/4 − 1/2) + m` for margin
`m = spacing · 0.9`. -/
theorem place_subnodes_geometry_example :
    ("X" ∈ ["X", "Y", "Z"]) ∧ ((0 : ℚ) < 1/10)
    ∧ (⟨"X", 0 + (1/10) * (1 - 9/10) / 2, (1/10) * (9/10),
         1/2 - (1/10) * (9/10) / 2,
         if (subnodeLineYs exSubLineData "B" "b" "X" exSubLineYs).length = 1
         then (1/10) * (9/10) else 3/4 - 1/2 + (1/10) * (9/10)⟩ : SubRect)
      ∈ placeSubnodes exSubLineData "B" "b" 0 (1/10) (1/10) exSubLineYs
          ["X", "Y", "Z"] := by
  have hys : subnodeLineYs exSubLineData "B" "b" "X" exSubLineYs
      = [3/4, 1/2] := by
    simp [subnodeLineYs, exSubLineData, exSubLineYs, List.lookup]
  refine ⟨by simp, by norm_num, ?_⟩
  exact (place_subnodes_geometry exSubLineData "B" "b" 0 (1/10) (1/10)
    exSubLineYs ["X", "Y", "Z"] "X" (by simp) (by norm_num)).2
    (1/2) (3/4)
    (by rw [hys]; simp)
    (by rw [hys]; intro y hy; simp at hy; rcases hy with rfl | rfl <;> norm_num)
    (by rw [hys]; simp)
    (by rw [hys]; intro y hy; simp at hy; rcases hy with rfl | rfl <;> norm_num)

/-- C5: two layout runs on identical inputs produce identical node
rectangles, line path segments, and subnode rectangles — the layout is a
pure function of its input (the process-wide random source feeds only the
`"random"` line-color mode, which never touches geometry). -/
theorem layout_deterministic (inp1 inp2 : LayoutInput) (h : inp1 = inp2) :
    runLayout inp1 = runLayout inp2 := by
  rw [h]

/-- C5 witness instance: rerunning the three-category witness layout
reproduces it exactly. -/
theorem layout_deterministic_example :
    ((⟨defaultConfig, exNodeData, exLineData, some "B"⟩ : LayoutInput)
        = ⟨defaultConfig, exNodeData, exLineData, some "B"⟩)
      ∧ runLayout ⟨defaultConfig, exNodeData, exLineData, some "B"⟩
        = runLayout ⟨defaultConfig, exNodeData, exLineData, some "B"⟩ :=
  ⟨rfl, layout_deterministic
    ⟨defaultConfig, exNodeData, exLineData, some "B"⟩
    ⟨defaultConfig, exNodeData, exLineData, some "B"⟩ rfl⟩

/-- C8 counterexample: calling `CurvedLine.get_line_points` on a
right-to-left connector — the shape every rightward-sweep connector has at
construction — swaps its start and finish in place: the segment state
after the call differs from the constructed one. -/
theorem curved_mutation_counterexample :
    (curvedGetLinePoints ⟨(1, 0), (0, 1), "c"⟩ 100).1
      ≠ (⟨(1, 0), (0, 1), "c"⟩ : SegRec) := by
  simp only [curvedGetLinePoints, curvedNormalize]
  norm_num

/-- C8 (amended): `CurvedLine.get_line_points` is the one point-sampling
operation that mutates its segment — it swaps start and finish exactly
when `finish.x < start.x` and is the identity on the state otherwise; the
name is never changed.  (`StraightLine.get_line_points` reads the state
without writing it, and the only other post-construction mutation of the
layout is the subnode backfill onto the owning node.) -/
theorem curved_get_line_points_mutation (s : SegRec) (num : ℕ) :
    (curvedGetLinePoints s num).1
        = (if s.finish.1 < s.start.1 then ⟨s.finish, s.start, s.name⟩ else s)
      ∧ (curvedGetLinePoints s num).1.name = s.name := by
  refine ⟨rfl, ?_⟩
  rw [curvedGetLinePoints]
  simp only [curvedNormalize]
  by_cases h : s.finish.1 < s.start.1
  · rw [if_pos h]
  · rw [if_neg h]

/-- `linspace` yields exactly the requested number of samples. -/
theorem linspace_length (a b : ℚ) : ∀ n, (linspace a b n).length = n
  | 0 => rfl
  | 1 => rfl
  | m + 2 => by rw [linspace, List.length_map, List.length_range]

/-- The Bezier of `CurvedLine` starts at the (possibly swapped) start. -/
theorem bezierX_zero (s : SegRec) : bezierX s 0 = s.start.1 := by
  rw [bezierX]; ring

/-- The Bezier of `CurvedLine` ends at the (possibly swapped) finish. -/
theorem bezierX_one (s : SegRec) : bezierX s 1 = s.finish.1 := by
  rw [bezierX]; ring

/-- The Bezier y starts at the start y. -/
theorem bezierY_zero (s : SegRec) : bezierY s 0 = s.start.2 := by
  rw [bezierY]; ring

/-- The Bezier y ends at the finish y. -/
theorem bezierY_one (s : SegRec) : bezierY s 1 = s.finish.2 := by
  rw [bezierY]; ring

/-- The in-place swap preserves the horizontal extent, so the curved
sample count equals the straight one. -/
theorem curved_actual_eq (s : SegRec) (num : ℕ) :
    ⌊|(curvedNormalize s).finish.1 - (curvedNormalize s).start.1|
      * (num : ℚ)⌋₊ = straightActualNum s num := by
  rw [curvedNormalize, straightActualNum]
  by_cases h : s.finish.1 < s.start.1
  · rw [if_pos h]
    simp [abs_sub_comm]
  · rw [if_neg h]

/-- Endpoint membership for straight sampling. -/
theorem straight_endpoints_iff (s : SegRec) (num : ℕ) :
    (s.start ∈ straightPoints s num ∧ s.finish ∈ straightPoints s num)
      ↔ 2 ≤ straightActualNum s num := by
  rcases hn : straightActualNum s num with _ | m
  · simp only [straightPoints, straightGetLinePoints, hn, linspace]
    simp
  · rcases m with _ | m2
    · constructor
      · rintro ⟨h1, h2⟩
        exfalso
        simp only [straightPoints, straightGetLinePoints, hn, linspace,
          List.zip_cons_cons, List.zip_nil_right] at h2
        have hfe : s.finish = (s.start.1, s.start.2) := by simpa using h2
        have hx : s.finish.1 = s.start.1 := by rw [hfe]
        have hzero : straightActualNum s num = 0 := by
          rw [straightActualNum, hx]
          simp
        omega
      · intro hc
        exfalso
        omega
    · constructor
      · intro _
        omega
      · intro _
        have hne : (((m2 + 1 : ℕ)) : ℚ) ≠ 0 := by
          exact_mod_cast Nat.succ_ne_zero m2
        constructor
        · rw [straightPoints, straightGetLinePoints, hn]
          simp only [linspace, List.zip_map']
          refine List.mem_map.mpr ⟨0, by simp, ?_⟩
          simp
        · rw [straightPoints, straightGetLinePoints, hn]
          simp only [linspace, List.zip_map']
          refine List.mem_map.mpr ⟨m2 + 1, by simp, ?_⟩
          rw [Prod.ext_iff]
          constructor
          · show s.start.1 + (s.finish.1 - s.start.1)
                * (((m2 + 1 : ℕ)) : ℚ) / (((m2 + 1 : ℕ)) : ℚ) = s.finish.1
            rw [mul_div_assoc, div_self hne, mul_one]
            ring
          · show s.start.2 + (s.finish.2 - s.start.2)
                * (((m2 + 1 : ℕ)) : ℚ) / (((m2 + 1 : ℕ)) : ℚ) = s.finish.2
            rw [mul_div_assoc, div_self hne, mul_one]
            ring

/-- Endpoint membership for curved sampling (relative to the state after
the in-place normalisation). -/
theorem curved_endpoints_iff (s : SegRec) (num : ℕ) :
    ((curvedGetLinePoints s num).1.start ∈ curvedPoints s num
      ∧ (curvedGetLinePoints s num).1.finish ∈ curvedPoints s num)
      ↔ 2 ≤ straightActualNum s num := by
  have heq := curved_actual_eq s num
  rcases hn : straightActualNum s num with _ | m
  · rw [hn] at heq
    constructor
    · rintro ⟨h1, _⟩
      exact absurd h1 (by simp [curvedPoints, curvedGetLinePoints, heq,
        linspace])
    · intro h
      exact absurd h (by omega)
  · rcases m with _ | m2
    · rw [hn] at heq
      constructor
      · rintro ⟨h1, h2⟩
        exfalso
        simp only [curvedPoints, curvedGetLinePoints, heq, linspace,
          List.map_cons, List.map_nil, List.zip_cons_cons,
          List.zip_nil_right, List.mem_singleton] at h2
        have hfe : (curvedNormalize s).finish
            = ((curvedNormalize s).start.1, (curvedNormalize s).start.2) := by
          simpa [bezierX_zero, bezierY_zero] using h2
        have hx : (curvedNormalize s).finish.1
            = (curvedNormalize s).start.1 := by rw [hfe]
        have hz : ⌊|(curvedNormalize s).finish.1
            - (curvedNormalize s).start.1| * (num : ℚ)⌋₊ = 0 := by
          rw [hx]
          simp
        omega
      · intro h
        exact absurd h (by omega)
    · rw [hn] at heq
      have hne : (((m2 + 1 : ℕ)) : ℚ) ≠ 0 := by
        exact_mod_cast Nat.succ_ne_zero m2
      constructor
      · intro _
        omega
      · intro _
        constructor
        · rw [curvedPoints]
          simp only [curvedGetLinePoints, heq, linspace, List.zip_map']
          refine List.mem_map.mpr
            ⟨(0 : ℚ) + (1 - 0) * ((0 : ℕ) : ℚ) / (((m2 + 1 : ℕ)) : ℚ),
             List.mem_map.mpr ⟨0, by simp, rfl⟩, ?_⟩
          have ht : (0 : ℚ) + (1 - 0) * ((0 : ℕ) : ℚ)
              / (((m2 + 1 : ℕ)) : ℚ) = 0 := by simp
          rw [ht, bezierX_zero, bezierY_zero]
        · rw [curvedPoints]
          simp only [curvedGetLinePoints, heq, linspace, List.zip_map']
          refine List.mem_map.mpr
            ⟨(0 : ℚ) + (1 - 0) * (((m2 + 1 : ℕ)) : ℚ)
               / (((m2 + 1 : ℕ)) : ℚ),
             List.mem_map.mpr ⟨m2 + 1, by simp, rfl⟩, ?_⟩
          have ht : (0 : ℚ) + (1 - 0) * (((m2 + 1 : ℕ)) : ℚ)
              / (((m2 + 1 : ℕ)) : ℚ) = 1 := by
            rw [zero_add, mul_div_assoc, div_self hne]
            norm_num
          rw [ht, bezierX_one, bezierY_one]

/-- C10: for both segment kinds, `get_line_points` with sampling
parameter `num` returns exactly `int(|finish.x − start.x| × num)` samples
in each coordinate list; a segment narrower than `1/num` yields empty
lists; and the segment's endpoints (for the curved kind: of the
normalised state the call returns) both occur among the sampled points
precisely when that count is at least 2. -/
theorem get_line_points_sampling (s : SegRec) (num : ℕ) (hnum : 0 < num) :
    ((straightGetLinePoints s num).1.length = straightActualNum s num
      ∧ (straightGetLinePoints s num).2.length = straightActualNum s num
      ∧ (curvedGetLinePoints s num).2.1.length = straightActualNum s num
      ∧ (curvedGetLinePoints s num).2.2.length = straightActualNum s num)
    ∧ (|s.finish.1 - s.start.1| < 1 / (num : ℚ) →
        straightGetLinePoints s num = ([], [])
          ∧ (curvedGetLinePoints s num).2 = ([], []))
    ∧ ((s.start ∈ straightPoints s num ∧ s.finish ∈ straightPoints s num)
        ↔ 2 ≤ straightActualNum s num)
    ∧ (((curvedGetLinePoints s num).1.start ∈ curvedPoints s num
        ∧ (curvedGetLinePoints s num).1.finish ∈ curvedPoints s num)
        ↔ 2 ≤ straightActualNum s num) := by
  refine ⟨⟨linspace_length _ _ _, linspace_length _ _ _, ?_, ?_⟩, ?_,
    straight_endpoints_iff s num, curved_endpoints_iff s num⟩
  · simp [curvedGetLinePoints, linspace_length, curved_actual_eq]
  · simp [curvedGetLinePoints, linspace_length, curved_actual_eq]
  · intro hsmall
    have hnumq : (0 : ℚ) < num := by exact_mod_cast hnum
    have hlt1 : |s.finish.1 - s.start.1| * (num : ℚ) < 1 :=
      (lt_div_iff₀ hnumq).mp hsmall
    have hzero : straightActualNum s num = 0 := by
      rw [straightActualNum]
      exact Nat.floor_eq_zero.mpr hlt1
    refine ⟨?_, ?_⟩
    · rw [straightGetLinePoints, hzero]
      rfl
    · have hzero2 : ⌊|(curvedNormalize s).finish.1
          - (curvedNormalize s).start.1| * (num : ℚ)⌋₊ = 0 := by
        rw [curved_actual_eq]
        exact hzero
      simp [curvedGetLinePoints, hzero2, linspace]

/-- C10 witness instance: the unit diagonal segment sampled with
`num = 10`. -/
theorem get_line_points_sampling_example :
    0 < 10
    ∧ (straightGetLinePoints ⟨(0, 0), (1, 1), "s"⟩ 10).1.length
      = straightActualNum ⟨(0, 0), (1, 1), "s"⟩ 10 :=
  ⟨by decide,
   (get_line_points_sampling ⟨(0, 0), (1, 1), "s"⟩ 10 (by decide)).1.1⟩

/-- C9 counterexample: invoked with zero lines, the slot assigner does
fail fast, but with the `IndexError` from extracting the category at
line 267 — the claimed division by zero at line 275 is never reached. -/
theorem zero_lines_error_counterexample :
    getLineYPositionsChecked [] (fun _ => none) (fun _ => none) []
        = Except.error PyErr.indexErr
      ∧ PyErr.indexErr ≠ PyErr.zeroDivErr :=
  ⟨rfl, by decide⟩

/-- C9 (amended): invoked for a category with zero lines in total, the
slot assigner fails fast — with the `IndexError` raised at line 267 while
extracting the category from the first entry of the empty mapping, before
the spacing division is reached — rather than returning NaN or garbage
slot positions. -/
theorem zero_lines_fail_fast (catDetails : List (String × NodeDetail))
    (subnodesOf : String → Option (List String))
    (lineSubnodeAt : LineId → Option String)
    (ordered : List (LineId × String)) (h : ordered = []) :
    getLineYPositionsChecked catDetails subnodesOf lineSubnodeAt ordered
      = Except.error PyErr.indexErr := by
  subst h
  rfl

/-- C9 witness instance: the empty mapping fails fast with the index
error. -/
theorem zero_lines_fail_fast_example :
    (([] : List (LineId × String)) = [])
      ∧ getLineYPositionsChecked [("n", ⟨0, 0, 0, 1⟩)] (fun _ => none)
          (fun _ => none) [] = Except.error PyErr.indexErr :=
  ⟨rfl, zero_lines_fail_fast [("n", ⟨0, 0, 0, 1⟩)] (fun _ => none)
    (fun _ => none) [] rfl⟩

/-- C4 counterexample: in the subnode scenario, the rectangle of subnode
`X` stores `min slot y − m/2 = 91/200` as its *bottom* (`position[1]` of
`plt.Rectangle`); its top edge `y + height = 159/200` does *not* equal
`min slot y − m/2`, so the formula the claim attributes to the top is in
fact the bottom. -/
theorem subnode_top_counterexample :
    (⟨"X", 1/200, 9/100, 91/200, 17/50⟩ : SubRect)
        ∈ placeSubnodes exSubLineData "B" "b" 0 (1/10) (1/10) exSubLineYs
            ["X", "Y", "Z"]
      ∧ (91/200 : ℚ) = 1/2 - (1/10) * (9/10) / 2
      ∧ (91/200 : ℚ) + 17/50 ≠ 1/2 - (1/10) * (9/10) / 2 := by
  refine ⟨?_, by norm_num, by norm_num⟩
  have : placeSubnodes exSubLineData "B" "b" 0 (1/10) (1/10) exSubLineYs
      ["X", "Y", "Z"]
      = [⟨"X", 1/200, 9/100, 91/200, 17/50⟩,
         ⟨"Y", 1/200, 9/100, 41/200, 9/100⟩] := by
    simp [placeSubnodes, placeSubnode, placeSubnodeSorted, subnodeLineYs,
      exSubLineData, exSubLineYs, List.lookup, List.insertionSort,
      List.orderedInsert, List.filterMap_cons]
    norm_num
  rw [this]
  simp
